import Mathlib

/-!
Verification of the Video-Annote core against its specification.

This file gives a shallow embedding of the pure core of the repository:

* `video_annote/timeutils.py` — time/frame recomputation for annotation
  records (`recompute_from_times`, `recompute_from_frames`) and the greedy
  lane-stacking algorithm (`stack_blocks_into_lanes`);
* `video_annote/domain.py` — the `AnnotationRecord` data model and the
  color-assignment helper `get_skill_color_hex`;
* `video_annote/main_window.py` — the `_finish_step` guard logic and the
  timeline drag-commit handler `_on_skill_timeline_edit_commit`;
* `video_annote/widgets/skill_timeline.py` — the drag-resize clamping in
  `mouseMoveEvent` / `_x_to_ms`;
* `video_annote/widgets/video_grid.py` — the end-of-stream masking rule
  `_update_black_cells`.

Python machine-independent semantics are modelled with `ℤ` for ints and `ℚ`
for floats (the code only adds, subtracts, multiplies centisecond-scale
values, far from any float-precision boundary); Python's `round` (banker's
rounding, round-half-to-even) is modelled by `pyRound`; Python exceptions
become `Except`; mutation of records/dicts becomes explicit state passing.
Python's `list.sort(key=...)` is a stable sort with respect to the key
order; `List.insertionSort` with the (total, transitive) key preorder is
that stable sort.
-/

namespace VideoAnnote

/-- Python 3 `round` for rationals: round-half-to-even (banker's rounding).
Written with `Rat.floor` so that concrete inputs evaluate by `decide`. -/
def pyRound (q : ℚ) : ℤ :=
  if q - (q.floor : ℚ) < 1/2 then q.floor
  else if 1/2 < q - (q.floor : ℚ) then q.floor + 1
  else if q.floor % 2 = 0 then q.floor else q.floor + 1

theorem ratFloor_eq_floor (q : ℚ) : q.floor = ⌊q⌋ := by
  rw [Rat.floor_def', Rat.floor_def]

theorem pyRound_eq (q : ℚ) :
    pyRound q =
      if q - (⌊q⌋ : ℚ) < 1/2 then ⌊q⌋
      else if 1/2 < q - (⌊q⌋ : ℚ) then ⌊q⌋ + 1
      else if ⌊q⌋ % 2 = 0 then ⌊q⌋ else ⌊q⌋ + 1 := by
  unfold pyRound
  rw [ratFloor_eq_floor]

/-- Structure `AnnotationRecord` from `video_annote/domain.py` (dataclass fields, in
source order).  Times are seconds (`ℚ`), frames are ints. -/
structure AnnotationRecord where
  label : String
  camid : String
  step_no : ℤ
  step_name : String
  start_frame : ℤ
  end_frame : ℤ
  total_frames : ℤ
  start_time : ℚ
  end_time : ℚ
  total_time : ℚ
  time_source : String
  audio_source : String
  confidence : ℤ
  notes : String
  deriving Repr, DecidableEq

/-- Function `seconds_to_frames` from `video_annote/timeutils.py`: defaults fps to 30
when not positive, then `int(round(seconds * fps))`. -/
def seconds_to_frames (seconds : ℚ) (fps : ℚ) : ℤ :=
  if fps ≤ 0 then pyRound (seconds * 30) else pyRound (seconds * fps)

/-- Function `frames_to_seconds` from `video_annote/timeutils.py`. -/
def frames_to_seconds (frames : ℤ) (fps : ℚ) : ℚ :=
  if fps ≤ 0 then (frames : ℚ) / 30 else (frames : ℚ) / fps

/-- Function `recompute_from_times` from `video_annote/timeutils.py`: clamp negative
times to 0, reject `end_time < start_time` (raises `ValueError` in Python,
modelled as `Except.error`), then derive frames and totals. -/
def recompute_from_times (rec : AnnotationRecord) (fps0 : ℚ) :
    Except String AnnotationRecord :=
  let fps := if fps0 ≤ 0 then 30 else fps0
  let st0 := rec.start_time
  let et0 := rec.end_time
  let st := if st0 < 0 then 0 else st0
  let et := if et0 < 0 then 0 else et0
  if et < st then
    Except.error "end_time must be >= start_time"
  else
    let sf := seconds_to_frames st fps
    let ef := seconds_to_frames et fps
    Except.ok { rec with
      start_time := st
      end_time := et
      total_time := et - st
      start_frame := sf
      end_frame := ef
      total_frames := max (ef - sf) 0 }

/-- Function `recompute_from_frames` from `video_annote/timeutils.py`: clamp negative
frames to 0, reject `end_frame < start_frame`, then derive times and totals. -/
def recompute_from_frames (rec : AnnotationRecord) (fps0 : ℚ) :
    Except String AnnotationRecord :=
  let fps := if fps0 ≤ 0 then 30 else fps0
  let sf0 := rec.start_frame
  let ef0 := rec.end_frame
  let sf := if sf0 < 0 then 0 else sf0
  let ef := if ef0 < 0 then 0 else ef0
  if ef < sf then
    Except.error "end_frame must be >= start_frame"
  else
    let st := frames_to_seconds sf fps
    let et := frames_to_seconds ef fps
    Except.ok { rec with
      start_frame := sf
      end_frame := ef
      total_frames := max (ef - sf) 0
      start_time := st
      end_time := et
      total_time := et - st }

/- Basic facts about `pyRound`. -/

theorem pyRound_eq_floor_or_succ (q : ℚ) :
    pyRound q = ⌊q⌋ ∨ pyRound q = ⌊q⌋ + 1 := by
  rw [pyRound_eq]
  split_ifs <;> simp

theorem pyRound_zero : pyRound 0 = 0 := by
  rw [pyRound_eq]
  norm_num

theorem pyRound_mono {a b : ℚ} (h : a ≤ b) : pyRound a ≤ pyRound b := by
  have hfab : ⌊a⌋ ≤ ⌊b⌋ := Int.floor_mono h
  rcases lt_or_eq_of_le hfab with hlt | heq
  · have ha : pyRound a ≤ ⌊a⌋ + 1 := by
      rcases pyRound_eq_floor_or_succ a with h1 | h1 <;> omega
    have hb : ⌊b⌋ ≤ pyRound b := by
      rcases pyRound_eq_floor_or_succ b with h1 | h1 <;> omega
    omega
  · rw [pyRound_eq, pyRound_eq]
    have hra : a - (⌊a⌋ : ℚ) ≤ b - (⌊b⌋ : ℚ) := by
      rw [heq]
      linarith
    rw [heq] at *
    split_ifs with h1 h2 h3 h4 h5 h6 h7 h8 <;> first
      | omega
      | linarith

theorem pyRound_nonneg {q : ℚ} (h : 0 ≤ q) : 0 ≤ pyRound q := by
  have := pyRound_mono h
  rw [pyRound_zero] at this
  exact this

/-! ## Lane stacking (`stack_blocks_into_lanes` in `video_annote/timeutils.py`) -/

/-- Structure `Block` from `video_annote/timeutils.py`: a simplified block
representation for timeline rendering (ms). -/
structure Block where
  idx : ℤ
  start_ms : ℤ
  end_ms : ℤ
  deriving Repr, DecidableEq

/-- The normalisation pass of `stack_blocks_into_lanes`: swap the bounds
when `end_ms < start_ms`.  (The Python loop rebuilds an identical `Block`
in the no-swap case; that rebuild is the identity.) -/
def normBlocks (blocks : List Block) : List Block :=
  blocks.map fun b =>
    if b.end_ms < b.start_ms then
      { idx := b.idx, start_ms := b.end_ms, end_ms := b.start_ms }
    else
      b

/-- The sort key of `stack_blocks_into_lanes`:
`(x.start_ms, x.end_ms - x.start_ms)`. -/
def sortKey (b : Block) : ℤ × ℤ := (b.start_ms, b.end_ms - b.start_ms)

/-- Python's tuple order on the sort key (lexicographic `≤`). -/
def blockLE (a b : Block) : Prop :=
  a.start_ms < b.start_ms ∨
    (a.start_ms = b.start_ms ∧ a.end_ms - a.start_ms ≤ b.end_ms - b.start_ms)

instance : DecidableRel blockLE := fun a b => by
  unfold blockLE
  infer_instance

instance : IsTotal Block blockLE where
  total a b := by
    unfold blockLE
    omega

instance : IsTrans Block blockLE where
  trans a b c hab hbc := by
    unfold blockLE at *
    omega

/-- Strict lexicographic order on sort keys (used only in proofs). -/
def blockLT (a b : Block) : Prop :=
  a.start_ms < b.start_ms ∨
    (a.start_ms = b.start_ms ∧ a.end_ms - a.start_ms < b.end_ms - b.start_ms)

instance : IsAntisymm Block blockLT where
  antisymm a b hab hba := by
    unfold blockLT at *
    omega

/-- The greedy placement of one block: scan the lanes in order, append the
block to the first lane whose last block ends no later than the block
starts, and open a new lane at the end when none fits.  (Lanes are never
empty; the `[]` inner case is unreachable.) -/
def placeBlock (b : Block) : List (List Block) → List (List Block)
  | [] => [[b]]
  | lane :: rest =>
    match lane.getLast? with
    | some last =>
      if last.end_ms ≤ b.start_ms then (lane ++ [b]) :: rest
      else lane :: placeBlock b rest
    | none => (lane ++ [b]) :: rest

/-- Function `stack_blocks_into_lanes` from `video_annote/timeutils.py`: normalise,
stable-sort by `(start_ms, duration)` (Python's `list.sort` is a stable
sort; `List.insertionSort` is the stable sort for this total preorder),
then place greedily. -/
def stack_blocks_into_lanes (blocks : List Block) : List (List Block) :=
  (((normBlocks blocks).insertionSort blockLE).foldl
    (fun lanes b => placeBlock b lanes) [])

/-- Invariant maintained by the greedy placement: within each lane,
consecutive blocks never overlap (previous end ≤ next start) and every
block has `start_ms ≤ end_ms`. -/
def lanesGood (lanes : List (List Block)) : Prop :=
  ∀ lane ∈ lanes,
    List.Chain' (fun a b => a.end_ms ≤ b.start_ms) lane ∧
    ∀ x ∈ lane, x.start_ms ≤ x.end_ms

theorem lanesGood_nil : lanesGood [] := by
  intro lane h
  cases h

theorem placeBlock_good {b : Block} (hb : b.start_ms ≤ b.end_ms) :
    ∀ {lanes : List (List Block)}, lanesGood lanes →
      lanesGood (placeBlock b lanes) := by
  intro lanes
  induction lanes with
  | nil =>
    intro _ lane hlane
    simp only [placeBlock, List.mem_singleton] at hlane
    subst hlane
    refine ⟨List.chain'_singleton b, ?_⟩
    intro x hx
    simp only [List.mem_singleton] at hx
    subst hx
    exact hb
  | cons lane rest ih =>
    intro h
    have hlane := h lane (List.mem_cons_self lane rest)
    have hrest : lanesGood rest := fun l hl => h l (List.mem_cons_of_mem _ hl)
    unfold placeBlock
    cases hlast : lane.getLast? with
    | some last =>
      by_cases hfit : last.end_ms ≤ b.start_ms
      · simp only [hfit, if_pos]
        intro l hl
        rcases List.mem_cons.mp hl with hl | hl
        · subst hl
          constructor
          · rw [List.chain'_append]
            refine ⟨hlane.1, List.chain'_singleton b, ?_⟩
            intro x hx y hy
            rw [hlast, Option.mem_some_iff] at hx
            simp only [List.head?_cons, Option.mem_some_iff] at hy
            subst hx; subst hy
            exact hfit
          · intro x hx
            rcases List.mem_append.mp hx with hx | hx
            · exact hlane.2 x hx
            · simp only [List.mem_singleton] at hx
              subst hx
              exact hb
        · exact hrest l hl
      · simp only [hfit, if_neg, not_false_iff]
        intro l hl
        rcases List.mem_cons.mp hl with hl | hl
        · subst hl
          exact hlane
        · exact ih hrest l hl
    | none =>
      intro l hl
      rcases List.mem_cons.mp hl with hl | hl
      · subst hl
        have : lane = [] := List.getLast?_eq_none_iff.mp hlast
        subst this
        constructor
        · simp
        · intro x hx
          simp only [List.nil_append, List.mem_singleton] at hx
          subst hx
          exact hb
      · exact hrest l hl

theorem foldl_place_good :
    ∀ (bs : List Block) (lanes : List (List Block)),
      (∀ b ∈ bs, b.start_ms ≤ b.end_ms) → lanesGood lanes →
      lanesGood (bs.foldl (fun lanes b => placeBlock b lanes) lanes) := by
  intro bs
  induction bs with
  | nil => intro lanes _ h; exact h
  | cons b bs ih =>
    intro lanes hnorm h
    simp only [List.foldl_cons]
    exact ih _ (fun x hx => hnorm x (List.mem_cons_of_mem _ hx))
      (placeBlock_good (hnorm b (List.mem_cons_self b bs)) h)

theorem normBlocks_normalized (blocks : List Block) :
    ∀ b ∈ normBlocks blocks, b.start_ms ≤ b.end_ms := by
  intro b hb
  unfold normBlocks at hb
  rcases List.mem_map.mp hb with ⟨a, _, rfl⟩
  by_cases h : a.end_ms < a.start_ms <;> simp [h] <;> omega

theorem stack_good (blocks : List Block) :
    lanesGood (stack_blocks_into_lanes blocks) := by
  unfold stack_blocks_into_lanes
  refine foldl_place_good _ _ ?_ lanesGood_nil
  intro b hb
  exact normBlocks_normalized blocks b ((List.mem_insertionSort blockLE).mp hb)

theorem chain'_head_le (a : Block) (l : List Block)
    (hc : List.Chain' (fun x y => x.end_ms ≤ y.start_ms) (a :: l))
    (hn : ∀ x ∈ l, x.start_ms ≤ x.end_ms) :
    ∀ b ∈ l, a.end_ms ≤ b.start_ms := by
  induction l generalizing a with
  | nil => intro b hb; cases hb
  | cons c l ih =>
    rw [List.chain'_cons] at hc
    intro b hb
    rcases List.mem_cons.mp hb with hb | hb
    · subst hb
      exact hc.1
    · have hcb : c.end_ms ≤ b.start_ms :=
        ih c hc.2 (fun x hx => hn x (List.mem_cons_of_mem _ hx)) b hb
      have hcn : c.start_ms ≤ c.end_ms := hn c (List.mem_cons_self c l)
      omega

theorem chain'_pairwise (l : List Block)
    (hc : List.Chain' (fun x y => x.end_ms ≤ y.start_ms) l)
    (hn : ∀ x ∈ l, x.start_ms ≤ x.end_ms) :
    l.Pairwise (fun x y => x.end_ms ≤ y.start_ms) := by
  induction l with
  | nil => exact List.Pairwise.nil
  | cons a l ih =>
    refine List.Pairwise.cons ?_
      (ih hc.tail (fun x hx => hn x (List.mem_cons_of_mem _ hx)))
    exact chain'_head_le a l hc (fun x hx => hn x (List.mem_cons_of_mem _ hx))

theorem stack_touch_same_lane (a b : Block) (ha : a.start_ms ≤ a.end_ms)
    (hb : b.start_ms ≤ b.end_ms) (hab : a.end_ms = b.start_ms) :
    stack_blocks_into_lanes [a, b] = [[a, b]] := by
  have hle : blockLE a b := by unfold blockLE; omega
  have hna : ¬ a.end_ms < a.start_ms := not_lt.mpr ha
  have hnb : ¬ b.end_ms < b.start_ms := not_lt.mpr hb
  unfold stack_blocks_into_lanes normBlocks
  simp only [List.map_cons, List.map_nil, if_neg hna, if_neg hnb,
    List.insertionSort, List.orderedInsert, if_pos hle, List.foldl_cons,
    List.foldl_nil, placeBlock]
  simp only [List.getLast?_singleton, if_pos hab.le, List.nil_append,
    List.singleton_append]

/-- C2 (counterexample): the touching-edges half of the claim fails for an
input that contains an inverted interval.  Input `a = ⟨0, 5, 0⟩` (inverted)
and `b = ⟨1, 0, 3⟩` satisfy `a.end_ms = b.start_ms = 0`, yet
`stack_blocks_into_lanes` places them in two different lanes
(`a` is normalised to `⟨0, 0, 5⟩`, which genuinely overlaps `b`). -/
theorem stack_touch_counterexample :
    (Block.mk 0 5 0).end_ms = (Block.mk 1 0 3).start_ms ∧
    stack_blocks_into_lanes [Block.mk 0 5 0, Block.mk 1 0 3] =
      [[Block.mk 1 0 3], [Block.mk 0 0 5]] ∧
    ¬ ∃ lane ∈ stack_blocks_into_lanes [Block.mk 0 5 0, Block.mk 1 0 3],
        (∃ x ∈ lane, x.idx = 0) ∧ ∃ y ∈ lane, y.idx = 1 := by
  refine ⟨rfl, by decide, by decide⟩

/-- C2 (amended): for every input list, no two blocks placed in the same
lane genuinely overlap (`b.start_ms < a.end_ms ∧ a.start_ms < b.end_ms`
never holds within a lane); and any two blocks that each satisfy
`start_ms ≤ end_ms` and touch (`a.end_ms = b.start_ms`) are placed in one
common lane.  (The original claim asserted the touching half for arbitrary
inputs; it fails when an input interval is inverted, see the
counterexample.) -/
theorem stack_no_overlap_touch_same_lane :
    (∀ (blocks : List Block), ∀ lane ∈ stack_blocks_into_lanes blocks,
        lane.Pairwise
          (fun a b => ¬(b.start_ms < a.end_ms ∧ a.start_ms < b.end_ms))) ∧
    (∀ a b : Block, a.start_ms ≤ a.end_ms → b.start_ms ≤ b.end_ms →
        a.end_ms = b.start_ms →
        ∃ lane ∈ stack_blocks_into_lanes [a, b], a ∈ lane ∧ b ∈ lane) := by
  constructor
  · intro blocks lane hlane
    obtain ⟨hc, hn⟩ := stack_good blocks lane hlane
    exact (chain'_pairwise lane hc hn).imp (fun h => by omega)
  · intro a b ha hb hab
    refine ⟨[a, b], ?_, by simp, by simp⟩
    rw [stack_touch_same_lane a b ha hb hab]
    simp

/-- C2 (witness): the touching half of the amended theorem applied at the
concrete blocks `a = ⟨0, 0, 5⟩`, `b = ⟨1, 5, 9⟩`. -/
theorem stack_no_overlap_touch_same_lane_witness :
    ∃ lane ∈ stack_blocks_into_lanes [Block.mk 0 0 5, Block.mk 1 5 9],
        Block.mk 0 0 5 ∈ lane ∧ Block.mk 1 5 9 ∈ lane :=
  stack_no_overlap_touch_same_lane.2 (Block.mk 0 0 5) (Block.mk 1 5 9)
    (by decide) (by decide) (by decide)

/-- C3 (counterexample): lane assignment is not invariant under permuting
the input when two blocks share the sort key `(start_ms, duration)`.  The
blocks `A = ⟨0, 0, 10⟩` and `B = ⟨1, 0, 10⟩` tie on the key; in input order
`[A, B]` the block with `idx = 0` lands in lane 0, in input order `[B, A]`
it lands in lane 1. -/
theorem stack_perm_counterexample :
    [Block.mk 0 0 10, Block.mk 1 0 10].Perm [Block.mk 1 0 10, Block.mk 0 0 10] ∧
    stack_blocks_into_lanes [Block.mk 0 0 10, Block.mk 1 0 10] =
      [[Block.mk 0 0 10], [Block.mk 1 0 10]] ∧
    stack_blocks_into_lanes [Block.mk 1 0 10, Block.mk 0 0 10] =
      [[Block.mk 1 0 10], [Block.mk 0 0 10]] ∧
    stack_blocks_into_lanes [Block.mk 0 0 10, Block.mk 1 0 10] ≠
      stack_blocks_into_lanes [Block.mk 1 0 10, Block.mk 0 0 10] := by
  refine ⟨List.Perm.swap _ _ _, by decide, by decide, by decide⟩

/-- C3 (amended): function `stack_blocks_into_lanes` is deterministic — the same
list always yields the same partition — and is invariant under permuting
the input provided no two normalised blocks share the sort key
`(start_ms, duration)`.  (The original claim asserted permutation
invariance unconditionally; it fails on tied sort keys, see the
counterexample: the stable sort falls back to input order there.) -/
theorem stack_deterministic :
    (∀ blocks : List Block,
        stack_blocks_into_lanes blocks = stack_blocks_into_lanes blocks) ∧
    ∀ (l₁ l₂ : List Block), l₁.Perm l₂ →
      (normBlocks l₁).Pairwise (fun a b => sortKey a ≠ sortKey b) →
      stack_blocks_into_lanes l₁ = stack_blocks_into_lanes l₂ := by
  refine ⟨fun _ => rfl, ?_⟩
  intro l₁ l₂ hp hkeys
  have hnp : (normBlocks l₁).Perm (normBlocks l₂) := hp.map _
  set s₁ := (normBlocks l₁).insertionSort blockLE with hs₁
  set s₂ := (normBlocks l₂).insertionSort blockLE with hs₂
  have hsp : s₁.Perm s₂ :=
    (List.perm_insertionSort blockLE (normBlocks l₁)).trans
      (hnp.trans (List.perm_insertionSort blockLE (normBlocks l₂)).symm)
  have hk₁ : s₁.Pairwise (fun a b => sortKey a ≠ sortKey b) :=
    ((List.perm_insertionSort blockLE (normBlocks l₁)).pairwise_iff (fun h => h.symm)).mpr
      hkeys
  have hk₂ : s₂.Pairwise (fun a b => sortKey a ≠ sortKey b) :=
    (hsp.pairwise_iff (fun h => h.symm)).mp hk₁
  have hlt : ∀ {x y : Block},
      blockLE x y ∧ sortKey x ≠ sortKey y → blockLT x y := by
    intro x y ⟨h1, h2⟩
    unfold blockLE at h1
    unfold blockLT
    have : ¬(x.start_ms = y.start_ms ∧
        x.end_ms - x.start_ms = y.end_ms - y.start_ms) := by
      intro hcon
      exact h2 (Prod.ext hcon.1 (by unfold sortKey; simp; omega))
    omega
  have hst₁ : s₁.Pairwise blockLT :=
    ((List.sorted_insertionSort blockLE (normBlocks l₁)).and hk₁).imp hlt
  have hst₂ : s₂.Pairwise blockLT :=
    ((List.sorted_insertionSort blockLE (normBlocks l₂)).and hk₂).imp hlt
  have hs : s₁ = s₂ := List.eq_of_perm_of_sorted hsp hst₁ hst₂
  unfold stack_blocks_into_lanes
  rw [← hs₁, ← hs₂, hs]

/-- C3 (witness): the determinism theorem applied at a concrete permuted
pair with distinct sort keys. -/
theorem stack_deterministic_witness :
    stack_blocks_into_lanes [Block.mk 0 0 5, Block.mk 1 2 9] =
      stack_blocks_into_lanes [Block.mk 1 2 9, Block.mk 0 0 5] :=
  stack_deterministic.2 _ _ (List.Perm.swap _ _ _) (by decide)

/-! ## Claims C1, C4, C9: the recompute rules -/

theorem if_neg_clamp (x : ℚ) : (if x < 0 then 0 else x) = max x 0 := by
  split_ifs with h
  · exact (max_eq_right h.le).symm
  · exact (max_eq_left (not_lt.mp h)).symm

/-- C1: for every annotation record and `fps > 0`, `recompute_from_times`
fails (with the strict-path `InvalidRange` error, never swapping the
bounds) exactly when the clamped end time is before the clamped start
time; on success the returned record satisfies
`start_frame = round(start_time * fps)`, `end_frame = round(end_time * fps)`,
`total_time = end_time - start_time`,
`total_frames = max(end_frame - start_frame, 0)`, and the two totals are
never negative. -/
theorem recompute_from_times_spec (rec : AnnotationRecord) (fps : ℚ)
    (hfps : 0 < fps) :
    (max rec.end_time 0 < max rec.start_time 0 →
      recompute_from_times rec fps =
        Except.error "end_time must be >= start_time") ∧
    (max rec.start_time 0 ≤ max rec.end_time 0 →
      ∃ r, recompute_from_times rec fps = Except.ok r ∧
        r.start_frame = pyRound (r.start_time * fps) ∧
        r.end_frame = pyRound (r.end_time * fps) ∧
        r.total_time = r.end_time - r.start_time ∧
        r.total_frames = max (r.end_frame - r.start_frame) 0 ∧
        0 ≤ r.total_time ∧ 0 ≤ r.total_frames) := by
  have hnfps : ¬ fps ≤ 0 := not_le.mpr hfps
  simp only [recompute_from_times, seconds_to_frames, if_neg hnfps,
    if_neg_clamp]
  split_ifs with hcmp
  · exact ⟨fun _ => rfl, fun h => absurd hcmp (not_lt.mpr h)⟩
  · refine ⟨fun h => absurd h hcmp, fun _ => ⟨_, rfl, rfl, rfl, rfl, rfl,
      ?_, le_max_right _ _⟩⟩
    simp only
    have := not_lt.mp hcmp
    linarith

/-- C1 (witness): evaluating `recompute_from_times` at `fps = 30` on the concrete
record with `start_time = 2`, `end_time = 5`. -/
theorem recompute_from_times_spec_witness :
    ∃ r, recompute_from_times
        (AnnotationRecord.mk "L" "video-1" 1 "step" 0 0 0 2 5 0
          "video-1" "video-1" 5 "") 30 = Except.ok r ∧
      r.start_frame = pyRound (r.start_time * 30) ∧
      r.end_frame = pyRound (r.end_time * 30) ∧
      r.total_time = r.end_time - r.start_time ∧
      r.total_frames = max (r.end_frame - r.start_frame) 0 ∧
      0 ≤ r.total_time ∧ 0 ≤ r.total_frames :=
  (recompute_from_times_spec
      (AnnotationRecord.mk "L" "video-1" 1 "step" 0 0 0 2 5 0
        "video-1" "video-1" 5 "") 30 (by norm_num)).2 (by norm_num)

/-- C9: function `recompute_from_times` clamps negative times to 0 before the
ordering check, so it fails exactly when `max(end_time, 0) <
max(start_time, 0)`; in particular a record with `start_time = -1`,
`end_time = -5` (inverted as given) succeeds and returns the all-zero
derived fields. -/
theorem recompute_from_times_clamps (rec : AnnotationRecord) (fps : ℚ) :
    ((∃ e, recompute_from_times rec fps = Except.error e) ↔
      max rec.end_time 0 < max rec.start_time 0) ∧
    (rec.start_time = -1 → rec.end_time = -5 →
      recompute_from_times rec fps =
        Except.ok { rec with
          start_time := 0, end_time := 0, total_time := 0,
          start_frame := 0, end_frame := 0, total_frames := 0 }) := by
  constructor
  · simp only [recompute_from_times, if_neg_clamp]
    split_ifs with hcmp
    · simp only [hcmp, iff_true]
      exact ⟨_, rfl⟩
    · simp only [hcmp, iff_false]
      rintro ⟨e, he⟩
      cases he
  · intro hst het
    simp only [recompute_from_times, if_neg_clamp, seconds_to_frames,
      hst, het]
    have h1 : max (-1 : ℚ) 0 = 0 := by norm_num
    have h2 : max (-5 : ℚ) 0 = 0 := by norm_num
    rw [h1, h2, if_neg (lt_irrefl 0)]
    split_ifs <;>
      simp [pyRound_zero]

/-- C9 (witness): the clamping theorem applied at a concrete record with
`start_time = -1`, `end_time = -5` and `fps = 30`. -/
theorem recompute_from_times_clamps_witness :
    recompute_from_times
        (AnnotationRecord.mk "L" "video-1" 1 "step" 7 9 2 (-1) (-5) 3
          "video-1" "video-1" 5 "") 30 =
      Except.ok (AnnotationRecord.mk "L" "video-1" 1 "step" 0 0 0 0 0 0
        "video-1" "video-1" 5 "") :=
  (recompute_from_times_clamps
      (AnnotationRecord.mk "L" "video-1" 1 "step" 7 9 2 (-1) (-5) 3
        "video-1" "video-1" 5 "") 30).2 rfl rfl

/-- C4: for `0 ≤ start_time ≤ end_time` and `fps > 0`, recomputing from
times and then from frames round-trips: both succeed and the second pass
reproduces the first pass's `total_frames` exactly, in particular within
1 frame. -/
theorem recompute_roundtrip (rec : AnnotationRecord) (fps : ℚ)
    (hfps : 0 < fps) (h0 : 0 ≤ rec.start_time)
    (hse : rec.start_time ≤ rec.end_time) :
    ∃ r₁ r₂, recompute_from_times rec fps = Except.ok r₁ ∧
      recompute_from_frames r₁ fps = Except.ok r₂ ∧
      r₂.total_frames = r₁.total_frames ∧
      |r₂.total_frames - r₁.total_frames| ≤ 1 := by
  have hnfps : ¬ fps ≤ 0 := not_le.mpr hfps
  have h1 : ¬ rec.start_time < 0 := not_lt.mpr h0
  have h2 : ¬ rec.end_time < 0 := not_lt.mpr (h0.trans hse)
  have h3 : ¬ rec.end_time < rec.start_time := not_lt.mpr hse
  have hsf : (0 : ℤ) ≤ pyRound (rec.start_time * fps) :=
    pyRound_nonneg (mul_nonneg h0 hfps.le)
  have hef : pyRound (rec.start_time * fps) ≤ pyRound (rec.end_time * fps) :=
    pyRound_mono (mul_le_mul_of_nonneg_right hse hfps.le)
  obtain ⟨r₁, ht, hrs, hre, hrt⟩ :
      ∃ r₁, recompute_from_times rec fps = Except.ok r₁ ∧
        r₁.start_frame = pyRound (rec.start_time * fps) ∧
        r₁.end_frame = pyRound (rec.end_time * fps) ∧
        r₁.total_frames = max (r₁.end_frame - r₁.start_frame) 0 := by
    refine ⟨{ rec with
        start_time := rec.start_time
        end_time := rec.end_time
        total_time := rec.end_time - rec.start_time
        start_frame := pyRound (rec.start_time * fps)
        end_frame := pyRound (rec.end_time * fps)
        total_frames := max (pyRound (rec.end_time * fps) -
          pyRound (rec.start_time * fps)) 0 }, ?_, rfl, rfl, rfl⟩
    simp only [recompute_from_times, seconds_to_frames, if_neg hnfps,
      if_neg h1, if_neg h2, if_neg h3]
  have hsf' : ¬ r₁.start_frame < 0 := by omega
  have hef' : ¬ r₁.end_frame < 0 := by omega
  have hcmp : ¬ r₁.end_frame < r₁.start_frame := by omega
  refine ⟨r₁, { r₁ with
      start_frame := r₁.start_frame
      end_frame := r₁.end_frame
      total_frames := max (r₁.end_frame - r₁.start_frame) 0
      start_time := (r₁.start_frame : ℚ) / fps
      end_time := (r₁.end_frame : ℚ) / fps
      total_time := (r₁.end_frame : ℚ) / fps -
        (r₁.start_frame : ℚ) / fps },
    ht, ?_, ?_, ?_⟩
  · simp only [recompute_from_frames, frames_to_seconds, if_neg hnfps,
      if_neg hsf', if_neg hef', if_neg hcmp]
  · simp only [hrt]
  · simp only [hrt]
    simp

/-- C4 (witness): the round-trip theorem applied at the concrete record
with `start_time = 2`, `end_time = 5`, `fps = 30`. -/
theorem recompute_roundtrip_witness :
    ∃ r₁ r₂, recompute_from_times
        (AnnotationRecord.mk "L" "video-1" 1 "step" 0 0 0 2 5 0
          "video-1" "video-1" 5 "") 30 = Except.ok r₁ ∧
      recompute_from_frames r₁ 30 = Except.ok r₂ ∧
      r₂.total_frames = r₁.total_frames ∧
      |r₂.total_frames - r₁.total_frames| ≤ 1 :=
  recompute_roundtrip
    (AnnotationRecord.mk "L" "video-1" 1 "step" 0 0 0 2 5 0
      "video-1" "video-1" 5 "") 30 (by norm_num) (by norm_num) (by norm_num)

/-! ## Color assignment (`get_skill_color_hex` in `video_annote/domain.py`) -/

/-- Palette `SKILL_COLOR_PALETTE_50` from `video_annote/domain.py`: 50 distinct,
high-contrast colors (hex), assigned sequentially. -/
def SKILL_COLOR_PALETTE_50 : List String :=
  ["#E6194B", "#3CB44B", "#FFE119", "#4363D8", "#F58231",
   "#911EB4", "#46F0F0", "#F032E6", "#BCF60C", "#FABEBE",
   "#008080", "#E6BEFF", "#9A6324", "#FFFAC8", "#800000",
   "#AAFFC3", "#808000", "#FFD8B1", "#000075", "#808080",
   "#000000", "#FF4500", "#1E90FF", "#32CD32", "#FFD700",
   "#8A2BE2", "#00CED1", "#FF1493", "#7FFF00", "#FFB6C1",
   "#20B2AA", "#BA55D3", "#B8860B", "#F0E68C", "#A52A2A",
   "#2E8B57", "#BDB76B", "#D2691E", "#4169E1", "#DC143C",
   "#00FA9A", "#9400D3", "#FF8C00", "#2F4F4F", "#ADFF2F",
   "#C71585", "#00BFFF", "#228B22", "#FF6347", "#6A5ACD"]

/-- Models `cfg.skill_color_map` (`step_no → palette index`): a Python dict in
insertion order, modelled as an association list; assignment to a fresh key
appends. -/
abbrev ColorMap : Type := List (ℤ × ℤ)

/-- Models `dict.get(key)`. -/
def mapLookup : ColorMap → ℤ → Option ℤ
  | [], _ => none
  | (k, v) :: rest, key => if k = key then some v else mapLookup rest key

/-- Models `dict.values()` (in insertion order). -/
def mapValues (m : ColorMap) : List ℤ :=
  m.map Prod.snd

/-- Models `for i in range(palette_n): if i not in used: ... break` — the first
palette index in `[0, 50)` not already used as a value. -/
def firstUnused (used : List ℤ) : Option ℕ :=
  (List.range 50).find? fun i => !(used.contains (i : ℤ))

/-- Models `max(used)` for a nonempty list (`None` when empty). -/
def maxList : List ℤ → Option ℤ
  | [] => none
  | x :: xs =>
    some (match maxList xs with
      | none => x
      | some mx => max x mx)

/-- The color for a stored index: palette entry for `idx < 50`
(`SKILL_COLOR_PALETTE_50[idx % 50]`), otherwise the generated color for
`idx - 50`.  `gen` stands for `_generated_color_hex`, a pure deterministic
function of the generated index whose float/HSV internals are outside this
embedding; all claims are proved for every `gen`. -/
def colorForIdx (gen : ℤ → String) (idx : ℤ) : String :=
  if idx < 50 then SKILL_COLOR_PALETTE_50.getD (idx % 50).toNat ""
  else gen (idx - 50)

/-- Function `get_skill_color_hex` from `video_annote/domain.py`.  Mutation of
`cfg.skill_color_map` is modelled by returning the updated map; `cfg is
None` is `Option.none`. -/
def get_skill_color_hex (gen : ℤ → String) (step_no : ℤ)
    (cfg : Option ColorMap) : String × Option ColorMap :=
  match cfg with
  | some m =>
    match mapLookup m step_no with
    | some idx => (colorForIdx gen idx, some m)
    | none =>
      match firstUnused (mapValues m) with
      | some i => (colorForIdx gen (i : ℤ), some (m ++ [(step_no, (i : ℤ))]))
      | none =>
        let next0 : ℤ := match maxList (mapValues m) with
          | none => 50
          | some mx => mx + 1
        let next := if next0 < 50 then 50 else next0
        (colorForIdx gen next, some (m ++ [(step_no, next)]))
  | none => (SKILL_COLOR_PALETTE_50.getD (step_no % 50).toNat "", none)

theorem mapLookup_append_self {m : ColorMap} {k : ℤ}
    (h : mapLookup m k = none) (v : ℤ) :
    mapLookup (m ++ [(k, v)]) k = some v := by
  induction m with
  | nil => simp [mapLookup]
  | cons p rest ih =>
    obtain ⟨k', v'⟩ := p
    by_cases hk : k' = k
    · subst hk
      simp [mapLookup] at h
    · simp only [mapLookup, if_neg hk] at h
      simpa [mapLookup, hk] using ih h

theorem mapLookup_append_of_some {m : ColorMap} {k v : ℤ}
    (h : mapLookup m k = some v) (p : ℤ × ℤ) :
    mapLookup (m ++ [p]) k = some v := by
  induction m with
  | nil => simp [mapLookup] at h
  | cons q rest ih =>
    obtain ⟨k', v'⟩ := q
    by_cases hk : k' = k
    · subst hk
      simp only [mapLookup, if_pos rfl] at h ⊢
      exact h
    · simp only [mapLookup, if_neg hk] at h ⊢
      exact ih h

theorem find?_range'_min (p : ℕ → Bool) :
    ∀ (n s i : ℕ), (List.range' s n).find? p = some i →
      p i = true ∧ s ≤ i ∧ i < s + n ∧
        ∀ j, s ≤ j → j < i → p j = false := by
  intro n
  induction n with
  | zero => intro s i h; simp [List.range'] at h
  | succ n ih =>
    intro s i h
    rw [List.range'] at h
    by_cases hp : p s
    · rw [List.find?_cons_of_pos _ hp] at h
      obtain rfl : s = i := by injection h
      exact ⟨hp, le_refl _, by omega, fun j h1 h2 => absurd h1 (by omega)⟩
    · rw [List.find?_cons_of_neg _ hp] at h
      obtain ⟨h1, h2, h3, h4⟩ := ih (s + 1) i h
      refine ⟨h1, by omega, by omega, ?_⟩
      intro j hj1 hj2
      rcases eq_or_lt_of_le hj1 with rfl | hlt
      · exact Bool.not_eq_true _ ▸ (by simpa using hp)
      · exact h4 j (by omega) hj2

theorem firstUnused_spec {used : List ℤ} {i : ℕ}
    (h : firstUnused used = some i) :
    i < 50 ∧ used.contains (i : ℤ) = false ∧
      ∀ j, j < i → used.contains ((j : ℕ) : ℤ) = true := by
  unfold firstUnused at h
  rw [List.range_eq_range'] at h
  obtain ⟨h1, _, h3, h4⟩ := find?_range'_min _ 50 0 i h
  refine ⟨by omega, by simpa using h1, ?_⟩
  intro j hj
  have := h4 j (by omega) hj
  simpa using this

/-- C7: color assignment through a map is stable: a second call with the
same category number and the resulting map returns the same color and the
same map; a call never changes the palette index of a category already in
the map; and a not-yet-mapped category is assigned the lowest palette
index in `[0, 50)` not currently used by the map (when one exists).
Proved for every generated-color function `gen`. -/
theorem get_skill_color_hex_stable (gen : ℤ → String) (n : ℤ)
    (m : ColorMap) :
    ((get_skill_color_hex gen n
        ((get_skill_color_hex gen n (some m)).2)).1 =
      (get_skill_color_hex gen n (some m)).1 ∧
     (get_skill_color_hex gen n
        ((get_skill_color_hex gen n (some m)).2)).2 =
      (get_skill_color_hex gen n (some m)).2) ∧
    (∀ k v, mapLookup m k = some v →
      ∀ m', (get_skill_color_hex gen n (some m)).2 = some m' →
        mapLookup m' k = some v) ∧
    (mapLookup m n = none →
      ∀ i, firstUnused (mapValues m) = some i →
        (get_skill_color_hex gen n (some m)).2 =
          some (m ++ [(n, (i : ℤ))]) ∧
        i < 50 ∧ (mapValues m).contains (i : ℤ) = false ∧
        ∀ j, j < i → (mapValues m).contains ((j : ℕ) : ℤ) = true) := by
  cases hlook : mapLookup m n with
  | some idx =>
    refine ⟨?_, ?_, ?_⟩
    · simp [get_skill_color_hex, hlook]
    · intro k v hkv m' hm'
      simp only [get_skill_color_hex, hlook] at hm'
      obtain rfl : m = m' := by injection hm'
      exact hkv
    · intro hnone
      simp at hnone
  | none =>
    cases hfu : firstUnused (mapValues m) with
    | some i =>
      have hl2 : mapLookup (m ++ [(n, (i : ℤ))]) n = some (i : ℤ) :=
        mapLookup_append_self hlook _
      refine ⟨?_, ?_, ?_⟩
      · simp [get_skill_color_hex, hlook, hfu, hl2]
      · intro k v hkv m' hm'
        simp only [get_skill_color_hex, hlook, hfu] at hm'
        obtain rfl : m ++ [(n, (i : ℤ))] = m' := by injection hm'
        exact mapLookup_append_of_some hkv _
      · intro _ i' hi'
        obtain rfl : i = i' := by injection hi'
        obtain ⟨h1, h2, h3⟩ := firstUnused_spec hfu
        exact ⟨by simp [get_skill_color_hex, hlook, hfu], h1, h2, h3⟩
    | none =>
      have hl2 : mapLookup
          (m ++ [(n, if (match maxList (mapValues m) with
              | none => (50 : ℤ)
              | some mx => mx + 1) < 50 then 50
            else match maxList (mapValues m) with
              | none => (50 : ℤ)
              | some mx => mx + 1)]) n = some _ :=
        mapLookup_append_self hlook _
      refine ⟨?_, ?_, ?_⟩
      · simp [get_skill_color_hex, hlook, hfu, hl2]
      · intro k v hkv m' hm'
        simp only [get_skill_color_hex, hlook, hfu] at hm'
        obtain rfl := (by injection hm' :
          m ++ [(n, _)] = m')
        exact mapLookup_append_of_some hkv _
      · intro _ i' hi'
        simp at hi'

/-- C7 (witness): the lowest-unused-allocation half applied at
`gen = fun _ => ""`, category 7 and the concrete map `{3 ↦ 0}`: palette
index 0 is taken, so category 7 gets index 1. -/
theorem get_skill_color_hex_stable_witness :
    (get_skill_color_hex (fun _ => "") 7 (some [(3, 0)])).2 =
      some [(3, 0), (7, 1)] :=
  ((get_skill_color_hex_stable (fun _ => "") 7 [(3, 0)]).2.2 (by decide)
    1 (by decide)).1

/-- C10: with no configuration the color is
`SKILL_COLOR_PALETTE_50[step_no % 50]` and no mapping is recorded; two
category numbers congruent modulo 50 get the same color; and the color for
category 1 differs between the no-config path and an empty-map config
(which assigns palette index 0). -/
theorem get_skill_color_hex_no_cfg :
    (∀ (gen : ℤ → String) (n : ℤ),
      get_skill_color_hex gen n none =
        (SKILL_COLOR_PALETTE_50.getD (n % 50).toNat "", none)) ∧
    (∀ (gen : ℤ → String) (n n' : ℤ), n % 50 = n' % 50 →
      (get_skill_color_hex gen n none).1 =
        (get_skill_color_hex gen n' none).1) ∧
    (∀ gen : ℤ → String,
      (get_skill_color_hex gen 1 none).1 ≠
        (get_skill_color_hex gen 1 (some [])).1) := by
  refine ⟨fun gen n => rfl, ?_, ?_⟩
  · intro gen n n' h
    simp [get_skill_color_hex, h]
  · intro gen
    show ("#3CB44B" : String) ≠ "#E6194B"
    decide

/-- C10 (witness): the congruence half applied at categories 1 and 51. -/
theorem get_skill_color_hex_no_cfg_witness :
    (get_skill_color_hex (fun _ => "") 1 none).1 =
      (get_skill_color_hex (fun _ => "") 51 none).1 :=
  get_skill_color_hex_no_cfg.2.1 (fun _ => "") 1 51 (by decide)

/-! ## Timeline drag editing (`skill_timeline.py`, `main_window.py`,
`annotations_table.py`) — claim C5 -/

/-- The drag-edit state of `_SkillTimelineCanvas`: the snapshot bounds
being edited and the timeline duration. -/
structure EditState where
  edit_start_ms : ℤ
  edit_end_ms : ℤ
  duration_ms : ℤ
  deriving Repr, DecidableEq

/-- The final clamp of `_x_to_ms`: `max(0, min(ms, duration_ms))`.
(The preceding pixel-to-ms conversion is rendering geometry; its rounded
result is the arbitrary candidate `ms`.) -/
def x_to_ms_clamp (duration_ms ms : ℤ) : ℤ := max 0 (min ms duration_ms)

/-- Models `mouseMoveEvent` with `_drag_mode == "left"`:
`edit_start_ms = min(new_ms, edit_end_ms)`. -/
def dragLeft (st : EditState) (target_ms : ℤ) : EditState :=
  let new_ms := x_to_ms_clamp st.duration_ms target_ms
  { st with edit_start_ms := min new_ms st.edit_end_ms }

/-- Models `mouseMoveEvent` with `_drag_mode == "right"`:
`edit_end_ms = max(new_ms, edit_start_ms)`. -/
def dragRight (st : EditState) (target_ms : ℤ) : EditState :=
  let new_ms := x_to_ms_clamp st.duration_ms target_ms
  { st with edit_end_ms := max new_ms st.edit_start_ms }

/-- Models `MainWindow._on_skill_timeline_edit_commit`: swap inverted bounds,
write the bounds (seconds) into the record, recompute. -/
def commitEdit (rec0 : AnnotationRecord) (fps : ℚ) (start_ms end_ms : ℤ) :
    Except String AnnotationRecord :=
  let p := if end_ms < start_ms then (end_ms, start_ms)
    else (start_ms, end_ms)
  recompute_from_times
    { rec0 with
      start_time := (p.1 : ℚ) / 1000
      end_time := (p.2 : ℚ) / 1000 } fps

/-- Models `AnnotationsTable._apply_edit_to_record`, column 8 (`end_time`): set
the new end time, then recompute (which raises on inversion). -/
def tableEditEndTime (rec0 : AnnotationRecord) (fps : ℚ) (et : ℚ) :
    Except String AnnotationRecord :=
  recompute_from_times { rec0 with end_time := et } fps

theorem pyRound_intCast (n : ℤ) : pyRound (n : ℚ) = n := by
  rw [pyRound_eq]
  norm_num

/-- C5 (counterexample): with snapshot `(4000 ms, 5000 ms)` and duration
10000 ms, dragging the right handle to 3000 ms clamps it at the left
handle (`edit_end_ms = max(3000, 4000) = 4000`), so the committed record
has `start_time = end_time = 4` seconds — not the claimed
`start = 3000, end = 4000`. -/
theorem drag_commit_counterexample :
    dragRight (EditState.mk 4000 5000 10000) 3000 =
      EditState.mk 4000 4000 10000 ∧
    commitEdit (AnnotationRecord.mk "L" "video-1" 1 "step" 120 150 30
        4 5 1 "video-1" "video-1" 5 "") 30 4000 4000 =
      Except.ok (AnnotationRecord.mk "L" "video-1" 1 "step" 120 120 0
        4 4 0 "video-1" "video-1" 5 "") ∧
    ¬ ∃ r, commitEdit (AnnotationRecord.mk "L" "video-1" 1 "step"
          120 150 30 4 5 1 "video-1" "video-1" 5 "") 30 4000 4000 =
        Except.ok r ∧ r.start_time = 3 := by
  have hc : commitEdit (AnnotationRecord.mk "L" "video-1" 1 "step" 120 150
      30 4 5 1 "video-1" "video-1" 5 "") 30 4000 4000 =
      Except.ok (AnnotationRecord.mk "L" "video-1" 1 "step" 120 120 0
        4 4 0 "video-1" "video-1" 5 "") := by
    have h4 : ((4000 : ℤ) : ℚ) / 1000 = 4 := by norm_num
    have h120 : (4 : ℚ) * 30 = ((120 : ℤ) : ℚ) := by norm_num
    simp only [commitEdit, if_neg (lt_irrefl (4000 : ℤ)), h4,
      recompute_from_times, seconds_to_frames]
    rw [if_neg (by norm_num : ¬ (30 : ℚ) ≤ 0),
      if_neg (by norm_num : ¬ (4 : ℚ) < 0), if_neg (lt_irrefl (4 : ℚ)),
      h120, pyRound_intCast]
    norm_num
  refine ⟨by decide, hc, ?_⟩
  rintro ⟨r, hr, hst⟩
  rw [hc] at hr
  obtain rfl : _ = r := by injection hr
  norm_num at hst

/-- C5 (amended): during a drag the left handle is clamped to
`≤ edit_end_ms` and the right handle to `≥ edit_start_ms`, with the raw
position clamped to `[0, timeline_duration_ms]`; the commit handler swaps
inverted bounds whenever it is invoked with `end_ms < start_ms`; the
drag-to-3000 scenario commits `(4000, 4000)` (the clamp prevents the
inversion, so the swap never fires on this path); and the direct table
edit of `end_time` to 3 s on a record starting at 4 s fails with the
strict-path `InvalidRange` error. -/
theorem drag_clamp_commit_spec :
    (∀ (st : EditState) (t : ℤ),
        (dragLeft st t).edit_start_ms =
          min (x_to_ms_clamp st.duration_ms t) st.edit_end_ms ∧
        (dragLeft st t).edit_start_ms ≤ st.edit_end_ms ∧
        (dragLeft st t).edit_end_ms = st.edit_end_ms ∧
        (dragRight st t).edit_end_ms =
          max (x_to_ms_clamp st.duration_ms t) st.edit_start_ms ∧
        st.edit_start_ms ≤ (dragRight st t).edit_end_ms ∧
        (dragRight st t).edit_start_ms = st.edit_start_ms ∧
        (0 ≤ st.duration_ms →
          0 ≤ x_to_ms_clamp st.duration_ms t ∧
          x_to_ms_clamp st.duration_ms t ≤ st.duration_ms)) ∧
    (∀ (rec0 : AnnotationRecord) (fps : ℚ) (s e : ℤ), e < s →
        commitEdit rec0 fps s e =
          recompute_from_times
            { rec0 with
              start_time := (e : ℚ) / 1000
              end_time := (s : ℚ) / 1000 } fps) ∧
    (dragRight (EditState.mk 4000 5000 10000) 3000 =
      EditState.mk 4000 4000 10000) ∧
    (∀ (rec0 : AnnotationRecord) (fps : ℚ), rec0.start_time = 4 →
        tableEditEndTime rec0 fps 3 =
          Except.error "end_time must be >= start_time") := by
  refine ⟨?_, ?_, by decide, ?_⟩
  · intro st t
    refine ⟨?_, ?_, ?_, ?_, ?_, ?_, ?_⟩ <;>
      first
        | rfl
        | exact min_le_right _ _
        | exact le_max_right _ _
        | exact fun h => ⟨le_max_left _ _, max_le h (min_le_right _ _)⟩
  · intro rec0 fps s e h
    simp only [commitEdit, if_pos h]
  · intro rec0 fps h
    simp only [tableEditEndTime, recompute_from_times, h]
    rw [if_neg (by norm_num : ¬ (4 : ℚ) < 0),
      if_neg (by norm_num : ¬ (3 : ℚ) < 0),
      if_pos (by norm_num : (3 : ℚ) < 4)]

/-- C5 (witness): the commit-swap half applied at a concrete inverted
pair, and the table-edit half at a concrete record starting at 4 s. -/
theorem drag_clamp_commit_spec_witness :
    commitEdit (AnnotationRecord.mk "L" "video-1" 1 "step" 120 150 30
        4 5 1 "video-1" "video-1" 5 "") 30 5000 3000 =
      recompute_from_times
        { AnnotationRecord.mk "L" "video-1" 1 "step" 120 150 30
            4 5 1 "video-1" "video-1" 5 "" with
          start_time := ((3000 : ℤ) : ℚ) / 1000
          end_time := ((5000 : ℤ) : ℚ) / 1000 } 30 ∧
    tableEditEndTime (AnnotationRecord.mk "L" "video-1" 1 "step" 120 150
        30 4 5 1 "video-1" "video-1" 5 "") 30 3 =
      Except.error "end_time must be >= start_time" :=
  ⟨drag_clamp_commit_spec.2.1 _ 30 5000 3000 (by decide),
   drag_clamp_commit_spec.2.2.2 _ 30 rfl⟩

/-! ## Step-capture finish (`MainWindow._finish_step`) — claim C6 -/

/-- Structure `SkillStep` (category): `(number, name)`. -/
structure SkillStep where
  number : ℤ
  name : String
  deriving Repr, DecidableEq

/-- The state read and written by `_finish_step`: the pending-capture
fields of `SessionState`, the annotation list, and the slider position
(the current end time in ms).  `AwaitingConfirmEnd` is the configuration
in which all pending fields are populated. -/
structure CaptureState where
  label : Option String
  pending_step : Option SkillStep
  pending_camid : Option String
  pending_start_ms : Option ℤ
  pending_time_source : Option String
  pending_audio_source : Option String
  annotations : List AnnotationRecord
  slider_value : ℤ
  deriving Repr, DecidableEq

/-- Python truthiness of an `Optional[str]`: `None` and `""` are falsy. -/
def optTruthy : Option String → Bool
  | none => false
  | some s => !(s == "")

/-- Python `str(x)` for an `Optional[str]`. -/
def pyStr : Option String → String
  | none => "None"
  | some s => s

/-- Outcome of `_finish_step`: the guard warnings, a cancelled
confidence/notes dialog, or an emitted record. -/
inductive FinishOutcome where
  | incomplete
  | invalidRange
  | cancelled
  | saved (emitted : AnnotationRecord)
  deriving Repr, DecidableEq

/-- Models `MainWindow._finish_step`.  `fps` is `video_grid.fps_for(time_source)`
and `prompt` the confidence/notes dialog result (`none` = cancelled); both
are external collaborators.  Guard failures return the state unchanged. -/
def finishStep (fps : ℚ) (prompt : Option (ℤ × String))
    (s : CaptureState) : CaptureState × FinishOutcome :=
  if s.pending_start_ms.isNone || s.pending_step.isNone ||
      !(optTruthy s.pending_camid) || !(optTruthy s.pending_time_source) ||
      !(optTruthy s.pending_audio_source) then
    (s, FinishOutcome.incomplete)
  else
    let end_ms := s.slider_value
    let start_ms := s.pending_start_ms.getD 0
    if end_ms < start_ms then
      (s, FinishOutcome.invalidRange)
    else
      match prompt with
      | none => (s, FinishOutcome.cancelled)
      | some (confidence, notes) =>
        let step := s.pending_step.getD (SkillStep.mk 0 "")
        let start_time := (start_ms : ℚ) / 1000
        let end_time := (end_ms : ℚ) / 1000
        let start_frame := pyRound (start_time * fps)
        let end_frame := pyRound (end_time * fps)
        let emitted : AnnotationRecord :=
          { label := pyStr s.label
            camid := pyStr s.pending_camid
            step_no := step.number
            step_name := step.name
            start_frame := start_frame
            end_frame := end_frame
            total_frames := max (end_frame - start_frame) 0
            start_time := start_time
            end_time := end_time
            total_time := end_time - start_time
            time_source := pyStr s.pending_time_source
            audio_source := pyStr s.pending_audio_source
            confidence := confidence
            notes := notes }
        ({ s with
            annotations := s.annotations ++ [emitted]
            pending_step := none
            pending_camid := none
            pending_start_ms := none
            pending_time_source := none
            pending_audio_source := none },
          FinishOutcome.saved emitted)

/-- C6: calling `finish()` in the `AwaitingConfirmEnd` configuration (all pending
fields populated) with the current end position strictly before the
captured start fails with `InvalidRange` and returns the state unchanged:
no record is emitted (`annotations` untouched), no pending field is
cleared, and the capture remains where it was — no partial transition. -/
theorem finish_step_invalid_range (fps : ℚ)
    (prompt : Option (ℤ × String)) (s : CaptureState) (start_ms : ℤ)
    (h1 : s.pending_start_ms = some start_ms)
    (h2 : s.pending_step.isSome = true)
    (h3 : optTruthy s.pending_camid = true)
    (h4 : optTruthy s.pending_time_source = true)
    (h5 : optTruthy s.pending_audio_source = true)
    (h6 : s.slider_value < start_ms) :
    finishStep fps prompt s = (s, FinishOutcome.invalidRange) := by
  unfold finishStep
  rw [h1]
  simp only [Option.isNone_some, Option.isSome_iff_exists] at *
  obtain ⟨step, hstep⟩ := h2
  rw [hstep]
  simp only [Option.isNone_some, h3, h4, h5, Bool.not_true,
    Bool.or_false, Bool.false_or, Bool.or_self, if_neg,
    Bool.false_eq_true, not_false_iff, Option.getD_some]
  rw [if_pos h6]

/-- C6 (witness): the guard theorem applied at a concrete
`AwaitingConfirmEnd` state with `start_ms = 2000` and slider at 1500. -/
theorem finish_step_invalid_range_witness :
    finishStep 30 (some (5, ""))
        (CaptureState.mk (some "L") (some (SkillStep.mk 1 "step"))
          (some "video-1") (some 2000) (some "video-1") (some "video-1")
          [] 1500) =
      (CaptureState.mk (some "L") (some (SkillStep.mk 1 "step"))
          (some "video-1") (some 2000) (some "video-1") (some "video-1")
          [] 1500, FinishOutcome.invalidRange) :=
  finish_step_invalid_range 30 (some (5, "")) _ 2000 rfl rfl
    (by decide) (by decide) (by decide) (by decide)

/-! ## End-of-stream masking (`VideoGrid._update_black_cells`) — claim C8 -/

/-- One loaded stream as seen by the masking rule: its id and probed
duration (ms). -/
structure StreamInfo where
  vid : String
  duration_ms : ℤ
  deriving Repr, DecidableEq

/-- The per-stream rule of `_update_black_cells`: show the black
placeholder iff the stream's own duration is positive and the master
position has run past it. -/
def showBlack (master_pos_ms dur : ℤ) : Bool :=
  decide (0 < dur) && decide (dur < master_pos_ms)

/-- Models `_update_black_cells`: apply the rule to every active view. -/
def update_black_cells (master_pos_ms : ℤ)
    (streams : List StreamInfo) : List (String × Bool) :=
  streams.map fun s => (s.vid, showBlack master_pos_ms s.duration_ms)

/-- Models `set_position_all`: every player is seeked to `max(0, position_ms)`;
the black cells are then refreshed at the master position read back from
the time source, which reports the seeked position. -/
def set_position_all_flags (position_ms : ℤ)
    (streams : List StreamInfo) : List (String × Bool) :=
  update_black_cells (max 0 position_ms) streams

/-- C8: after a master-position change, an active stream is masked
exhausted (black) iff its own duration is positive and strictly less than
the master position, and is live otherwise; in particular seeking to
9000 ms with stream durations 10000/8000/12000 ms (time source the
12000 ms stream, which reports back 9000 ms) masks exactly the 8000 ms
stream. -/
theorem update_black_cells_spec :
    (∀ (master : ℤ) (streams : List StreamInfo) (s : StreamInfo),
        s ∈ streams →
        (s.vid, showBlack master s.duration_ms) ∈
          update_black_cells master streams ∧
        (showBlack master s.duration_ms = true ↔
          0 < s.duration_ms ∧ s.duration_ms < master)) ∧
    set_position_all_flags 9000
        [StreamInfo.mk "video-1" 10000, StreamInfo.mk "video-2" 8000,
         StreamInfo.mk "video-3" 12000] =
      [("video-1", false), ("video-2", true), ("video-3", false)] := by
  refine ⟨?_, by decide⟩
  intro master streams s hs
  constructor
  · exact List.mem_map_of_mem _ hs
  · simp [showBlack]

/-- C8 (witness): the rule applied to the 8000 ms stream of the scenario. -/
theorem update_black_cells_spec_witness :
    (("video-2", showBlack 9000 8000) ∈
      update_black_cells 9000
        [StreamInfo.mk "video-1" 10000, StreamInfo.mk "video-2" 8000,
         StreamInfo.mk "video-3" 12000]) ∧
    (showBlack 9000 8000 = true ↔
      (0 : ℤ) < 8000 ∧ (8000 : ℤ) < 9000) :=
  update_black_cells_spec.1 9000
    [StreamInfo.mk "video-1" 10000, StreamInfo.mk "video-2" 8000,
     StreamInfo.mk "video-3" 12000]
    (StreamInfo.mk "video-2" 8000) (by decide)

end VideoAnnote
